import Mathlib

/-!
Verification development for the ssdHelpers candidate set
(adapters/repos/db/vector/ssdHelpers/set.go) and the tile-encoder quantizer
of the vector-search core.

Modelling conventions:
* vector ids are Go uint64 values that the code only compares for equality;
  they are modelled as Nat;
* distances are Go float32 values that the code only compares with < and
  again never computes with; they are modelled as Int, the pluggable
  DistanceFunction becoming a function into Int;
* size and capacity are Go int fields, modelled as Int so that the
  decrement/increment pair in Set.Add keeps its exact meaning;
* a Go nil pointer dereference (a panic) is modelled by returning none from
  the Set-level operation in which it happens;
* the Go VectorForID callback returns ([]float32, error); the error is
  modelled as a Bool flag that is true exactly when the fetch fails, and the
  context argument is dropped.
-/

namespace SsdHelpers

/-- Entry stored in the candidate structure: vector id, distance to the search
center and the visited flag. Mirrors IndexAndDistance in set.go. -/
structure IndexAndDistance where
  index : Nat
  distance : Int
  visited : Bool
deriving DecidableEq, Repr

/-- Pointer-linked binary tree of candidate entries. The Go code works with
*Node, which may be nil; the nil constructor stands for the nil pointer.
Mirrors Node in set.go. -/
inductive Node where
  | nil : Node
  | node (data : IndexAndDistance) (left right : Node) : Node
deriving DecidableEq, Repr

/-- Candidate set record. Mirrors Set in set.go field by field. -/
structure Set where
  items : Node
  vectorForID : Nat → List Int × Bool
  distance : List Int → List Int → Int
  center : List Int
  capacity : Int
  size : Int

/-- Constructor NewSet from set.go: nil tree, size 0. -/
def NewSet (capacity : Int) (vectorForID : Nat → List Int × Bool)
    (distance : List Int → List Int → Int) (center : List Int) : Set :=
  ⟨Node.nil, vectorForID, distance, center, capacity, 0⟩

/-- Node.Add from set.go: binary-tree insertion keyed on distance (strictly
smaller goes left, larger-or-equal goes right), with a duplicate-id check at
each node of the descent path. The nil case captures the child == nil
allocation branches of the Go code together with the items == nil root
creation inside Set.Add. -/
def Node.Add : Node → IndexAndDistance → Node
  | .nil, data => .node data .nil .nil
  | .node d l r, data =>
    if d.index = data.index then .node d l r
    else if data.distance < d.distance then .node d (l.Add data) r
    else .node d l (r.Add data)

/-- Distance held by the rightmost node, the node that the Go helper
Node.Last walks to; the nil case is unreachable from the call site. -/
def Node.lastDistance : Node → Int
  | .nil => 0
  | .node d _ .nil => d.distance
  | .node _ _ (.node d2 l2 r2) => (Node.node d2 l2 r2).lastDistance

/-- Unlinking surgery performed by Set.RemoveLastIfBigger once it has decided
to remove: the rightmost node disappears and its left subtree takes its place
(parent.right = last.left, or s.items = s.items.left when the root itself is
the rightmost node). -/
def Node.removeRightmost : Node → Node
  | .nil => .nil
  | .node _ l .nil => l
  | .node d l (.node d2 l2 r2) => .node d l ((Node.node d2 l2 r2).removeRightmost)

/-- Set.RemoveLastIfBigger from set.go. none models the Go panic: with a nil
items pointer the call s.items.Last(nil) dereferences nil. Otherwise the Go
boolean result is paired with the updated set: false (and no change) when the
rightmost entry is strictly closer than the argument, true (and the rightmost
node removed) when it is at least as far. -/
def Set.RemoveLastIfBigger (s : Set) (dist : Int) : Option (Bool × Set) :=
  match s.items with
  | .nil => none
  | .node d l r =>
    if (Node.node d l r).lastDistance < dist then some (false, s)
    else some (true, { s with items := (Node.node d l r).removeRightmost })

/-- Set.Add from set.go. The fetch error is discarded exactly as in the Go
source (vec, _ := s.vectorForID(ctx, x)) and the distance is computed from the
returned vector regardless of the flag. On the full path the Go code does
s.size-- followed by s.size++, kept here as s.size - 1 + 1. none models the
nil dereference reachable through RemoveLastIfBigger. -/
def Set.Add (s : Set) (x : Nat) : Option Set :=
  let vec := (s.vectorForID x).1
  let dist := s.distance vec s.center
  if s.size = s.capacity then
    match s.RemoveLastIfBigger dist with
    | none => none
    | some (false, s1) => some s1
    | some (true, s1) =>
      some { s1 with
             size := s1.size - 1 + 1
             items := s1.items.Add ⟨x, dist, false⟩ }
  else
    some { s with
           size := s.size + 1
           items := s.items.Add ⟨x, dist, false⟩ }

/-- Node.NotVisited from set.go: some entry of the subtree is unvisited. The
nil case captures the left != nil / right != nil guards. -/
def Node.NotVisited : Node → Bool
  | .nil => false
  | .node d l r => if d.visited = false then true else l.NotVisited || r.NotVisited

/-- Set.NotVisited from set.go calls s.items.NotVisited() unconditionally;
none models the nil dereference on the empty set. -/
def Set.NotVisited (s : Set) : Option Bool :=
  match s.items with
  | .nil => none
  | .node d l r => some ((Node.node d l r).NotVisited)

/-- Set.AddRange from set.go: adds every id in order; a panic inside one Add
aborts the remaining iterations. -/
def Set.AddRange (s : Set) (indices : List Nat) : Option Set :=
  indices.foldlM Set.Add s

/-- Set.Size from set.go. -/
def Set.Size (s : Set) : Int := s.size

/-- Node.Top from set.go: in-order search for the first unvisited entry, which
is marked visited. The Go pair (index, found) is returned together with the
updated tree; ((0, false), unchanged tree) is the not-found outcome. When a
child call returns found = false it has not modified the child (proved below
as Node.Top_not_found_tree), so threading the returned subtree matches the
in-place Go semantics; the nil case captures the nil-child guards. -/
def Node.Top : Node → (Nat × Bool) × Node
  | .nil => ((0, false), .nil)
  | .node d l r =>
    let pl := l.Top
    if pl.1.2 then (pl.1, .node d pl.2 r)
    else if d.visited = false then
      ((d.index, true), .node { d with visited := true } pl.2 r)
    else
      let pr := r.Top
      (pr.1, .node d pl.2 pr.2)

/-- Set.Top from set.go: x, _ := s.items.Top(); return x. The found flag is
discarded, so the not-found outcome surfaces as the plain id 0; none models
the nil dereference on the empty set. -/
def Set.Top (s : Set) : Option (Nat × Set) :=
  match s.items with
  | .nil => none
  | .node d l r =>
    let p := (Node.node d l r).Top
    some (p.1.1, { s with items := p.2 })

/-- Number of nodes stored in the tree. -/
def Node.count : Node → Nat
  | .nil => 0
  | .node _ l r => l.count + 1 + r.count

/-- In-order entry list of the tree; Node.Elements writes exactly this
sequence into the caller's buffer, left subtree first, then the node, then the
right subtree. -/
def Node.inorder : Node → List IndexAndDistance
  | .nil => []
  | .node d l r => l.inorder ++ d :: r.inorder

/-- Set.Elements from set.go: allocates a buffer of length s.size, fills it in
order through Node.Elements and returns the written prefix. none models the
two reachable panics: the nil dereference on the empty set, and the
out-of-range write when the tree stores more nodes than the buffer holds. -/
def Set.Elements (s : Set) : Option (List Nat) :=
  match s.items with
  | .nil => none
  | .node d l r =>
    if ((Node.node d l r).count : Int) ≤ s.size then
      some (((Node.node d l r).inorder).map IndexAndDistance.index)
    else none

/-- Every entry of the tree carries visited = true. -/
def Node.allVisited : Node → Bool
  | .nil => true
  | .node d l r => d.visited && l.allVisited && r.allVisited

/-- Search-tree ordering that Node.Add establishes: every entry left of a node
is strictly closer than the node, every entry right of it at least as far. -/
def Node.ordered : Node → Bool
  | .nil => true
  | .node d l r =>
    l.inorder.all (fun e => decide (e.distance < d.distance)) &&
    r.inorder.all (fun e => decide (d.distance ≤ e.distance)) &&
    l.ordered && r.ordered

/-- Descent predicate mirroring Node.Add: the id x is found on the search path
that an entry at distance dist follows through the tree. -/
def Node.findsDup : Node → Nat → Int → Bool
  | .nil, _, _ => false
  | .node d l r, x, dist =>
    if d.index = x then true
    else if dist < d.distance then l.findsDup x dist
    else r.findsDup x dist

/-- List-level mirror of Node.Top: scan the list, mark the first unvisited
entry visited, and return the same (index, found) pair shape. -/
def markFirstUnvisited : List IndexAndDistance → (Nat × Bool) × List IndexAndDistance
  | [] => ((0, false), [])
  | e :: es =>
    if e.visited = false then
      ((e.index, true), { e with visited := true } :: es)
    else
      let p := markFirstUnvisited es
      (p.1, e :: p.2)

/-- Single operation of the public mutation interface of the set. -/
inductive SetOp where
  | add (x : Nat) : SetOp
  | addRange (xs : List Nat) : SetOp

/-- Interpretation of one operation. -/
def Set.runOp (s : Set) : SetOp → Option Set
  | .add x => s.Add x
  | .addRange xs => s.AddRange xs

/-- Interpretation of a sequence of operations, aborting on a panic. -/
def runOps : Set → List SetOp → Option Set
  | s, [] => some s
  | s, op :: ops => (s.runOp op).bind fun s1 => runOps s1 ops

/-- Shared concrete vector source: id i resolves to the one-entry vector [i]
with no error. -/
def idSource : Nat → List Int × Bool := fun i => ([(i : Int)], false)

/-- Shared concrete vector source whose every fetch yields [10]. -/
def tenSource : Nat → List Int × Bool := fun _ => ([10], false)

/-- Shared concrete distance function: first coordinate of the left vector. -/
def headDistance : List Int → List Int → Int := fun v _ => v.headD 0

theorem Node.length_inorder : ∀ t : Node, t.inorder.length = t.count
  | .nil => rfl
  | .node d l r => by
    simp [Node.inorder, Node.count, Node.length_inorder l, Node.length_inorder r]
    omega

theorem Node.inorder_ne_nil (d : IndexAndDistance) (l r : Node) :
    (Node.node d l r).inorder ≠ [] := by
  simp [Node.inorder]

theorem Node.allVisited_iff : ∀ t : Node,
    t.allVisited = true ↔ ∀ e ∈ t.inorder, e.visited = true
  | .nil => by simp [Node.allVisited, Node.inorder]
  | .node d l r => by
    simp only [Node.allVisited, Bool.and_eq_true, Node.inorder,
      List.mem_append, List.mem_cons]
    constructor
    · rintro ⟨⟨hd, hl⟩, hr⟩ e he
      rcases he with he | rfl | he
      · exact (Node.allVisited_iff l).1 hl e he
      · exact hd
      · exact (Node.allVisited_iff r).1 hr e he
    · intro h
      refine ⟨⟨h d (Or.inr (Or.inl rfl)), (Node.allVisited_iff l).2 ?_⟩,
        (Node.allVisited_iff r).2 ?_⟩
      · exact fun e he => h e (Or.inl he)
      · exact fun e he => h e (Or.inr (Or.inr he))

theorem Node.sorted_of_ordered : ∀ t : Node, t.ordered = true →
    t.inorder.Pairwise (fun a b => a.distance ≤ b.distance)
  | .nil, _ => by simp [Node.inorder]
  | .node d l r, h => by
    simp only [Node.ordered, Bool.and_eq_true, List.all_eq_true,
      decide_eq_true_eq] at h
    obtain ⟨⟨⟨hl, hr⟩, hlo⟩, hro⟩ := h
    have ihl := Node.sorted_of_ordered l hlo
    have ihr := Node.sorted_of_ordered r hro
    simp only [Node.inorder, List.pairwise_append, List.pairwise_cons,
      List.mem_cons]
    refine ⟨ihl, ⟨fun b hb => hr b hb, ihr⟩, fun a ha b hb => ?_⟩
    rcases hb with rfl | hb
    · exact le_of_lt (hl a ha)
    · exact le_of_lt (lt_of_lt_of_le (hl a ha) (hr b hb))

theorem Node.lastDistance_mem : ∀ (d : IndexAndDistance) (l r : Node),
    ∃ e ∈ (Node.node d l r).inorder,
      e.distance = (Node.node d l r).lastDistance
  | d, l, .nil => ⟨d, by simp [Node.inorder, Node.lastDistance]⟩
  | d, l, .node d2 l2 r2 => by
    obtain ⟨e, he, hde⟩ := Node.lastDistance_mem d2 l2 r2
    exact ⟨e, by simp [Node.inorder] at he ⊢; tauto, by
      simpa [Node.lastDistance] using hde⟩

theorem Node.le_lastDistance : ∀ t : Node, t.ordered = true →
    ∀ e ∈ t.inorder, e.distance ≤ t.lastDistance := by
  intro t
  induction t with
  | nil => intro _ e he; simp [Node.inorder] at he
  | node d l r ihl ihr =>
    intro h e he
    simp only [Node.ordered, Bool.and_eq_true, List.all_eq_true,
      decide_eq_true_eq] at h
    obtain ⟨⟨⟨hl, hr⟩, hlo⟩, hro⟩ := h
    simp only [Node.inorder, List.mem_append, List.mem_cons] at he
    cases r with
    | nil =>
      simp only [Node.lastDistance]
      rcases he with he | rfl | he
      · exact le_of_lt (hl e he)
      · exact le_refl _
      · simp [Node.inorder] at he
    | node d2 l2 r2 =>
      have hdlast : d.distance ≤ (Node.node d2 l2 r2).lastDistance := by
        obtain ⟨e2, he2, hde2⟩ := Node.lastDistance_mem d2 l2 r2
        exact hde2 ▸ hr e2 he2
      have hstep : (Node.node d l (Node.node d2 l2 r2)).lastDistance
          = (Node.node d2 l2 r2).lastDistance := rfl
      rw [hstep]
      rcases he with he | rfl | he
      · exact le_trans (le_of_lt (hl e he)) hdlast
      · exact hdlast
      · exact ihr hro e he

theorem Node.inorder_removeRightmost : ∀ (d : IndexAndDistance) (l r : Node),
    ((Node.node d l r).removeRightmost).inorder =
      ((Node.node d l r).inorder).dropLast
  | d, l, .nil => by
    simp [Node.removeRightmost, Node.inorder]
  | d, l, .node d2 l2 r2 => by
    have ih := Node.inorder_removeRightmost d2 l2 r2
    have hne : (Node.node d2 l2 r2).inorder ≠ [] := Node.inorder_ne_nil d2 l2 r2
    calc ((Node.node d l (Node.node d2 l2 r2)).removeRightmost).inorder
        = l.inorder ++ d :: ((Node.node d2 l2 r2).removeRightmost).inorder := rfl
      _ = l.inorder ++ d :: ((Node.node d2 l2 r2).inorder).dropLast := by rw [ih]
      _ = l.inorder ++ (d :: (Node.node d2 l2 r2).inorder).dropLast := by
            rw [List.dropLast_cons_of_ne_nil hne]
      _ = (l.inorder ++ d :: (Node.node d2 l2 r2).inorder).dropLast := by
            rw [List.dropLast_append_cons]
      _ = ((Node.node d l (Node.node d2 l2 r2)).inorder).dropLast := rfl

theorem markFirstUnvisited_not_found : ∀ l : List IndexAndDistance,
    (markFirstUnvisited l).1.2 = false →
    markFirstUnvisited l = ((0, false), l) ∧ ∀ e ∈ l, e.visited = true := by
  intro l
  induction l with
  | nil => exact fun _ => ⟨rfl, by simp⟩
  | cons e es ih =>
    intro h
    cases hv : e.visited with
    | false => simp [markFirstUnvisited, hv] at h
    | true =>
      simp only [markFirstUnvisited, hv] at h ⊢
      simp only [Bool.true_eq_false, if_false] at h ⊢
      obtain ⟨h1, h2⟩ := ih h
      rw [h1]
      refine ⟨rfl, fun x hx => ?_⟩
      rcases List.mem_cons.mp hx with rfl | hx
      · exact hv
      · exact h2 x hx

theorem markFirstUnvisited_all_visited : ∀ l : List IndexAndDistance,
    (∀ e ∈ l, e.visited = true) → markFirstUnvisited l = ((0, false), l) := by
  intro l
  induction l with
  | nil => exact fun _ => rfl
  | cons e es ih =>
    intro h
    have hv : e.visited = true := h e (List.mem_cons_self e es)
    have ht := ih fun x hx => h x (List.mem_cons_of_mem _ hx)
    simp [markFirstUnvisited, hv, ht]

theorem markFirstUnvisited_append : ∀ l1 l2 : List IndexAndDistance,
    markFirstUnvisited (l1 ++ l2) =
      if (markFirstUnvisited l1).1.2 then
        ((markFirstUnvisited l1).1, (markFirstUnvisited l1).2 ++ l2)
      else
        ((markFirstUnvisited l2).1, l1 ++ (markFirstUnvisited l2).2) := by
  intro l1 l2
  induction l1 with
  | nil => simp [markFirstUnvisited]
  | cons e es ih =>
    cases hv : e.visited with
    | false => simp [markFirstUnvisited, hv]
    | true =>
      simp only [List.cons_append, markFirstUnvisited, hv,
        Bool.true_eq_false, if_false, List.append_eq]
      rw [ih]
      by_cases h2 : (markFirstUnvisited es).1.2
      · simp [h2]
      · simp [h2]

theorem markFirstUnvisited_some : ∀ l : List IndexAndDistance,
    (markFirstUnvisited l).1.2 = true →
    ∃ pre e post, l = pre ++ e :: post ∧
      (∀ p ∈ pre, p.visited = true) ∧
      e.visited = false ∧
      (markFirstUnvisited l).1.1 = e.index ∧
      (markFirstUnvisited l).2 = pre ++ { e with visited := true } :: post := by
  intro l
  induction l with
  | nil => intro h; simp [markFirstUnvisited] at h
  | cons e es ih =>
    intro h
    cases hv : e.visited with
    | false =>
      refine ⟨[], e, es, by simp, by simp, hv, ?_, ?_⟩
      · simp [markFirstUnvisited, hv]
      · simp [markFirstUnvisited, hv]
    | true =>
      have h2 : (markFirstUnvisited es).1.2 = true := by
        simpa [markFirstUnvisited, hv] using h
      obtain ⟨pre, e0, post, hdec, hpre, he0, hidx, hres⟩ := ih h2
      refine ⟨e :: pre, e0, post, by simp [hdec], fun p hp => ?_, he0, ?_, ?_⟩
      · rcases List.mem_cons.mp hp with rfl | hp
        · exact hv
        · exact hpre p hp
      · simpa [markFirstUnvisited, hv] using hidx
      · simp [markFirstUnvisited, hv, hres]

theorem markFirstUnvisited_found : ∀ l : List IndexAndDistance,
    (∃ e ∈ l, e.visited = false) → (markFirstUnvisited l).1.2 = true := by
  intro l h
  by_contra hf
  have hf2 : (markFirstUnvisited l).1.2 = false := by simpa using hf
  obtain ⟨e, he, hev⟩ := h
  have := (markFirstUnvisited_not_found l hf2).2 e he
  simp [this] at hev

theorem markFirstUnvisited_forall2 : ∀ l : List IndexAndDistance,
    List.Forall₂ (fun a b => a.index = b.index ∧ a.distance = b.distance ∧
      (a.visited = true → b.visited = true)) l (markFirstUnvisited l).2 := by
  intro l
  induction l with
  | nil => exact List.Forall₂.nil
  | cons e es ih =>
    cases hv : e.visited with
    | false =>
      have hstep : (markFirstUnvisited (e :: es)).2 =
          { e with visited := true } :: es := by
        simp [markFirstUnvisited, hv]
      rw [hstep]
      exact List.Forall₂.cons ⟨rfl, rfl, fun _ => rfl⟩
        (List.forall₂_same.2 fun a _ => ⟨rfl, rfl, id⟩)
    | true =>
      have hstep : (markFirstUnvisited (e :: es)).2 =
          e :: (markFirstUnvisited es).2 := by
        simp [markFirstUnvisited, hv]
      rw [hstep]
      exact List.Forall₂.cons ⟨rfl, rfl, id⟩ ih

theorem Node.Top_markFirstUnvisited : ∀ t : Node,
    t.Top.1 = (markFirstUnvisited t.inorder).1 ∧
    (t.Top.2).inorder = (markFirstUnvisited t.inorder).2 := by
  intro t
  induction t with
  | nil => exact ⟨rfl, rfl⟩
  | node d l r ihl ihr =>
    obtain ⟨ihl1, ihl2⟩ := ihl
    obtain ⟨ihr1, ihr2⟩ := ihr
    by_cases hfl : l.Top.1.2 = true
    · constructor
      · simp [Node.Top, Node.inorder, markFirstUnvisited_append, ← ihl1, hfl]
      · simp [Node.Top, Node.inorder, markFirstUnvisited_append, ← ihl1, hfl,
          ihl2]
    · have hfl2 : l.Top.1.2 = false := by simpa using hfl
      have hmf2 : (markFirstUnvisited l.inorder).1.2 = false := by
        rw [← ihl1]; exact hfl2
      have hnf := (markFirstUnvisited_not_found l.inorder hmf2).1
      cases hv : d.visited with
      | false =>
        constructor
        · simp [Node.Top, Node.inorder, markFirstUnvisited_append, hfl2, hv,
            hnf, markFirstUnvisited]
        · simp [Node.Top, Node.inorder, markFirstUnvisited_append, hfl2, hv,
            hnf, ihl2, markFirstUnvisited]
      | true =>
        constructor
        · simp [Node.Top, Node.inorder, markFirstUnvisited_append, hfl2, hv,
            hnf, ihr1, markFirstUnvisited]
        · simp [Node.Top, Node.inorder, markFirstUnvisited_append, hfl2, hv,
            hnf, ihl2, ihr2, markFirstUnvisited]

theorem Node.Top_not_found_tree : ∀ t : Node, t.Top.1.2 = false → t.Top.2 = t := by
  intro t
  induction t with
  | nil => exact fun _ => rfl
  | node d l r ihl ihr =>
    intro h
    by_cases hfl : l.Top.1.2 = true
    · simp [Node.Top, hfl] at h
    · have hfl2 : l.Top.1.2 = false := by simpa using hfl
      cases hv : d.visited with
      | false => simp [Node.Top, hfl2, hv] at h
      | true =>
        have h2 : r.Top.1.2 = false := by
          simpa [Node.Top, hfl2, hv] using h
        simp [Node.Top, hfl2, hv, ihl hfl2, ihr h2]

theorem Node.Top_not_found_val : ∀ t : Node, t.Top.1.2 = false → t.Top.1 = (0, false) := by
  intro t h
  have hm := (Node.Top_markFirstUnvisited t).1
  rw [hm] at h ⊢
  rw [(markFirstUnvisited_not_found _ h).1]

theorem Node.Add_findsDup : ∀ (t : Node) (data : IndexAndDistance),
    t.findsDup data.index data.distance = true → t.Add data = t := by
  intro t data
  induction t with
  | nil => intro h; simp [Node.findsDup] at h
  | node d l r ihl ihr =>
    intro h
    by_cases hi : d.index = data.index
    · simp [Node.Add, hi]
    · simp only [Node.findsDup, hi, if_false] at h
      by_cases hd : data.distance < d.distance
      · rw [if_pos hd] at h
        simp [Node.Add, hi, hd, ihl h]
      · rw [if_neg hd] at h
        simp [Node.Add, hi, hd, ihr h]

theorem Set.Add_inv (s : Set) (x : Nat) (s1 : Set)
    (hle : s.size ≤ s.capacity) (h : s.Add x = some s1) :
    s1.size ≤ s1.capacity ∧ s1.capacity = s.capacity := by
  simp only [Set.Add] at h
  by_cases hfull : s.size = s.capacity
  · rw [if_pos hfull] at h
    cases hitems : s.items with
    | nil =>
      simp only [Set.RemoveLastIfBigger, hitems] at h
      cases h
    | node d l r =>
      simp only [Set.RemoveLastIfBigger, hitems] at h
      by_cases hlt : (Node.node d l r).lastDistance <
          s.distance (s.vectorForID x).1 s.center
      · rw [if_pos hlt] at h
        injection h with h
        subst h
        exact ⟨hle, rfl⟩
      · rw [if_neg hlt] at h
        injection h with h
        subst h
        exact ⟨by show s.size - 1 + 1 ≤ s.capacity; omega, rfl⟩
  · rw [if_neg hfull] at h
    injection h with h
    subst h
    exact ⟨by show s.size + 1 ≤ s.capacity; omega, rfl⟩

theorem Set.AddRange_inv : ∀ (xs : List Nat) (s s1 : Set),
    s.size ≤ s.capacity → s.AddRange xs = some s1 →
    s1.size ≤ s1.capacity ∧ s1.capacity = s.capacity := by
  intro xs
  induction xs with
  | nil => intro s s1 hle h; cases h; exact ⟨hle, rfl⟩
  | cons x xs ih =>
    intro s s1 hle h
    simp only [Set.AddRange, List.foldlM_cons] at h
    cases hadd : s.Add x with
    | none => rw [hadd] at h; cases h
    | some s2 =>
      rw [hadd] at h
      obtain ⟨h2, hcap⟩ := Set.Add_inv s x s2 hle hadd
      have h3 := ih s2 s1 h2 h
      exact ⟨h3.1, hcap ▸ h3.2⟩

theorem runOps_inv : ∀ (ops : List SetOp) (s s1 : Set),
    s.size ≤ s.capacity → runOps s ops = some s1 →
    s1.size ≤ s1.capacity ∧ s1.capacity = s.capacity := by
  intro ops
  induction ops with
  | nil => intro s s1 hle h; cases h; exact ⟨hle, rfl⟩
  | cons op ops ih =>
    intro s s1 hle h
    simp only [runOps] at h
    cases hop : s.runOp op with
    | none => rw [hop] at h; cases h
    | some s2 =>
      rw [hop] at h
      have h2 : s2.size ≤ s2.capacity ∧ s2.capacity = s.capacity := by
        cases op with
        | add y => exact Set.Add_inv s y s2 hle hop
        | addRange ys => exact Set.AddRange_inv ys s s2 hle hop
      have h3 := ih s2 s1 h2.1 h
      exact ⟨h3.1, h2.2 ▸ h3.2⟩

theorem Set.Top_eq (s : Set) (d0 : IndexAndDistance) (l r : Node)
    (h : s.items = Node.node d0 l r) :
    s.Top = some ((Node.node d0 l r).Top.1.1,
      { s with items := (Node.node d0 l r).Top.2 }) := by
  simp only [Set.Top, h]

/-- Cumulative-position map used by the tile-encoder model: strictly
monotone, valued between 0 and 1 and equal to 1/2 at the center. -/
def tileCdf (z : ℚ) : ℚ := 1 / 2 + z / (2 * (1 + |z|))

/-- Modelled from the spec: the repository holds only the unit tests of the
scalar quantizer (TestTileEncoderEncode / TestTileEncoderCentroids);
NewTileEncoder, TileEncoder.Add and TileEncoder.Encode themselves are not
under src. Per spec section 4.5 the trained state is a running summary of the
observed value distribution, kept here as its center (mean) and scale. -/
structure TileEncoder where
  bits : Nat
  mean : ℚ
  scale : ℚ

/-- Modelled from the spec: Encode maps a scalar to its bucket through the
cumulative position of the value in the learned distribution, scaled by the
bucket count 2^bits and rounded; values far below or above the learned range
snap to the edge outputs. Rounding the scaled cumulative position produces
the 2^bits + 1 distinct outputs 0 .. 2^bits that the reference test records
(byte(0), byte(8), byte(16) for bits = 4). -/
def TileEncoder.Encode (te : TileEncoder) (x : ℚ) : ℤ :=
  round ((2 ^ te.bits : ℚ) * tileCdf ((x - te.mean) / te.scale))

/-- Modelled from the spec: summary state of a 4-bit encoder after training
on 1,000,000 samples of a unit-scale distribution centered at 100 (the
reference test feeds rand.NormFloat64() + 100 one million times). -/
def trainedTileEncoder : TileEncoder := ⟨4, 100, 1⟩

theorem sigmoid_mono {z w : ℚ} (h : z ≤ w) : z / (1 + |z|) ≤ w / (1 + |w|) := by
  have hz : (0 : ℚ) < 1 + |z| := by positivity
  have hw : (0 : ℚ) < 1 + |w| := by positivity
  rw [div_le_div_iff₀ hz hw]
  rcases le_or_lt 0 z with hz0 | hz0
  · have hw0 : (0 : ℚ) ≤ w := le_trans hz0 h
    rw [abs_of_nonneg hz0, abs_of_nonneg hw0]
    nlinarith
  · rcases le_or_lt 0 w with hw0 | hw0
    · rw [abs_of_neg hz0, abs_of_nonneg hw0]
      nlinarith
    · rw [abs_of_neg hz0, abs_of_neg hw0]
      nlinarith

theorem tileCdf_mono {z w : ℚ} (h : z ≤ w) : tileCdf z ≤ tileCdf w := by
  have hs := sigmoid_mono h
  unfold tileCdf
  have e1 : ∀ u : ℚ, u / (2 * (1 + |u|)) = u / (1 + |u|) / 2 := fun u => by
    rw [div_div, mul_comm]
  rw [e1, e1]
  linarith

/-- Shared concrete vector source whose every fetch fails: it returns the
empty vector together with a raised error flag. -/
def failSource : Nat → List Int × Bool := fun _ => ([], true)

/-- Observable state of a candidate set: the stored tree and the size field
(the fields that every query operation reads). -/
def Set.observe (s : Set) : Node × Int := (s.items, s.size)

/-- Same set with the error flag of every fetch result forced to b, the
fetched vectors unchanged. -/
def Set.withErrorFlag (s : Set) (b : Bool) : Set :=
  { s with vectorForID := fun i => ((s.vectorForID i).1, b) }

/-- Concrete one-entry set that is full: capacity 1, size 1, storing id 1 at
distance 10; every further fetch resolves to distance 10 as well. -/
def fullTenSet : Set :=
  ⟨Node.node ⟨1, 10, false⟩ Node.nil Node.nil, tenSource, headDistance, [], 1, 1⟩

/-- Concrete set with spare capacity holding id 5 at distance 5. -/
def dupBase : Set :=
  ⟨Node.node ⟨5, 5, false⟩ Node.nil Node.nil, idSource, headDistance, [], 5, 1⟩

/-- C1, counterexample. The claim says a failing fetch inside Add propagates
as an error aborting the search step. With a source whose every fetch fails
(failSource), Add(7) does not fail: it returns the updated set, with id 7
inserted at the distance computed from the returned empty vector. -/
theorem c1_counterexample :
    ((NewSet 5 failSource headDistance []).Add 7).map Set.observe =
      some (Node.node ⟨7, 0, false⟩ Node.nil Node.nil, 1) := rfl

/-- C1, amended. Set.Add discards the fetch error with a blank identifier:
its observable result (stored tree and size) is identical whatever the error
flag returned by the vector source, so no fetch failure is ever propagated
and the enclosing search step is never aborted. -/
theorem c1_amended (s : Set) (x : Nat) (b : Bool) :
    ((s.withErrorFlag b).Add x).map Set.observe = (s.Add x).map Set.observe := by
  cases s with
  | mk it f di ce cap sz =>
    cases it with
    | nil =>
      by_cases h : sz = cap <;>
        simp [Set.Add, Set.withErrorFlag, Set.RemoveLastIfBigger, h, Set.observe]
    | node d l r =>
      by_cases h : sz = cap
      · by_cases h2 : (Node.node d l r).lastDistance < di (f x).1 ce <;>
          simp [Set.Add, Set.withErrorFlag, Set.RemoveLastIfBigger, h, h2,
            Set.observe]
      · simp [Set.Add, Set.withErrorFlag, Set.RemoveLastIfBigger, h, Set.observe]

/-- C2, counterexample. The claim says a duplicate Add leaves entries,
visited flags and Size() unchanged. Adding id 5 twice to a fresh capacity-5
set stores one entry but reports Size() = 2: the second (duplicate) Add
changed the reported size. -/
theorem c2_counterexample :
    (((NewSet 5 idSource headDistance []).Add 5).map Set.observe =
      some (Node.node ⟨5, 5, false⟩ Node.nil Node.nil, 1)) ∧
    ((((NewSet 5 idSource headDistance []).Add 5).bind fun s => s.Add 5).map
        Set.observe =
      some (Node.node ⟨5, 5, false⟩ Node.nil Node.nil, 2)) := ⟨rfl, rfl⟩

/-- C2, amended. When the set is not full and the duplicate id is found on
the descent path of its distance, a second Add of an existing id leaves the
stored entries and their visited flags unchanged, but still increments the
reported size: Set.Add counts the insertion before Node.Add detects the
duplicate. -/
theorem c2_amended (s : Set) (x : Nat)
    (hsz : ¬s.size = s.capacity)
    (hdup : s.items.findsDup x (s.distance (s.vectorForID x).1 s.center) = true) :
    (s.Add x).map (fun t => t.items) = some s.items ∧
    (s.Add x).map Set.Size = some (s.size + 1) := by
  have hAdd : s.items.Add ⟨x, s.distance (s.vectorForID x).1 s.center, false⟩
      = s.items := Node.Add_findsDup s.items _ hdup
  simp only [Set.Add, if_neg hsz]
  exact ⟨by simp [hAdd], by simp [Set.Size]⟩

/-- C2, witness for the amended theorem at a concrete input: duplicate Add of
id 5 into dupBase keeps the single stored entry and reports size 2. -/
theorem c2_witness :
    ((dupBase.Add 5).map (fun t => t.items) =
      some (Node.node ⟨5, 5, false⟩ Node.nil Node.nil)) ∧
    ((dupBase.Add 5).map Set.Size = some 2) :=
  c2_amended dupBase 5 (by decide) (by decide)

/-- C3, counterexample. The claim says that, on a full set, adding a
candidate whose distance is farther than or equal to the farthest entry is a
no-op. fullTenSet is full with farthest distance 10; adding id 2 at the equal
distance 10 replaces the stored entry with id 2, so the equal-distance case
evicts instead of being a no-op. -/
theorem c3_counterexample :
    (headDistance (tenSource 2).1 fullTenSet.center =
      fullTenSet.items.lastDistance) ∧
    ((fullTenSet.Add 2).map Set.observe =
      some (Node.node ⟨2, 10, false⟩ Node.nil Node.nil, 1)) := ⟨rfl, rfl⟩

/-- C3, amended. On a full set the no-op test is strict: Add is a no-op
exactly when the new candidate is strictly farther than the rightmost
(farthest, by the ordering invariant) entry; when the candidate is closer or
at equal distance, Add removes exactly the farthest entry (the last element
of the ascending entry list) and inserts the new candidate, keeping the
size. -/
theorem c3_amended (s : Set) (d0 : IndexAndDistance) (l r : Node) (x : Nat)
    (hfull : s.size = s.capacity)
    (hitems : s.items = Node.node d0 l r)
    (hord : (Node.node d0 l r).ordered = true) :
    (∀ e ∈ (Node.node d0 l r).inorder,
      e.distance ≤ (Node.node d0 l r).lastDistance) ∧
    ((Node.node d0 l r).lastDistance <
        s.distance (s.vectorForID x).1 s.center → s.Add x = some s) ∧
    (s.distance (s.vectorForID x).1 s.center ≤
        (Node.node d0 l r).lastDistance →
      (s.Add x).map Set.Size = some s.size ∧
      (s.Add x).map (fun t => t.items) =
        some (((Node.node d0 l r).removeRightmost).Add
          ⟨x, s.distance (s.vectorForID x).1 s.center, false⟩) ∧
      ((Node.node d0 l r).removeRightmost).inorder =
        ((Node.node d0 l r).inorder).dropLast) := by
  refine ⟨Node.le_lastDistance _ hord, fun hlt => ?_, fun hle => ?_⟩
  · simp only [Set.Add, if_pos hfull, Set.RemoveLastIfBigger, hitems,
      if_pos hlt]
  · have hnlt : ¬(Node.node d0 l r).lastDistance <
        s.distance (s.vectorForID x).1 s.center := not_lt.mpr hle
    refine ⟨?_, ?_, Node.inorder_removeRightmost d0 l r⟩
    · simp only [Set.Add, if_pos hfull, Set.RemoveLastIfBigger, hitems,
        if_neg hnlt]
      simp [Set.Size]
    · simp only [Set.Add, if_pos hfull, Set.RemoveLastIfBigger, hitems,
        if_neg hnlt]
      simp

/-- C3, witness for the amended theorem at a concrete input: adding id 2 at
distance 10 to the full fullTenSet (farthest distance 10) keeps size 1,
replaces the stored entry by id 2, and the removal drops exactly the last
element of the entry list. -/
theorem c3_witness :
    ((fullTenSet.Add 2).map Set.Size = some 1) ∧
    ((fullTenSet.Add 2).map (fun t => t.items) =
      some (Node.node ⟨2, 10, false⟩ Node.nil Node.nil)) ∧
    (((Node.node ⟨1, 10, false⟩ Node.nil Node.nil).removeRightmost).inorder =
      ((Node.node ⟨1, 10, false⟩ Node.nil Node.nil).inorder).dropLast) :=
  (c3_amended fullTenSet ⟨1, 10, false⟩ Node.nil Node.nil 2 rfl rfl
    (by decide)).2.2 (by decide)

/-- Concrete one-entry tree with an unvisited entry for id 7. -/
def freshProbeTree : Node := Node.node ⟨7, 3, false⟩ Node.nil Node.nil

/-- C4, counterexample. The claim says an id returned by Next is never
returned by a later Next on the same set. On a capacity-1 set: Add 5, Next
returns 5 (marking it visited), Add 5 again (the duplicate ties the farthest
entry, so the visited entry is evicted and id 5 reinserted unvisited), and
the next Next returns 5 a second time. -/
theorem c4_counterexample :
    (((NewSet 1 idSource headDistance []).Add 5).bind fun s1 =>
      (s1.Top).bind fun p2 =>
        (p2.2.Add 5).bind fun s3 =>
          (s3.Top).map fun p4 => (p2.1, p4.1)) = some (5, 5) := rfl

/-- C4, amended. Under Next (Node.Top) alone the visited flags are monotone:
the ids and distances of the stored entries are unchanged and no flag ever
reverts from visited to unvisited, and any id that Next returns belonged to a
still-unvisited entry. An id can therefore be re-returned only when an
intervening Add evicts the visited entry and re-inserts the id unvisited. -/
theorem c4_amended (t : Node) :
    List.Forall₂ (fun a b => a.index = b.index ∧ a.distance = b.distance ∧
      (a.visited = true → b.visited = true)) t.inorder (t.Top.2).inorder ∧
    (∀ x : Nat, t.Top.1 = (x, true) →
      ∃ e ∈ t.inorder, e.index = x ∧ e.visited = false) := by
  obtain ⟨hm1, hm2⟩ := Node.Top_markFirstUnvisited t
  constructor
  · rw [hm2]
    exact markFirstUnvisited_forall2 t.inorder
  · intro x hx
    rw [hm1] at hx
    have hfound : (markFirstUnvisited t.inorder).1.2 = true := by rw [hx]
    obtain ⟨pre, e, post, hdec, hpre, hev, hidx, hres⟩ :=
      markFirstUnvisited_some t.inorder hfound
    have hmem : e ∈ t.inorder := by rw [hdec]; simp
    have hxe : e.index = x := by rw [← hidx, hx]
    exact ⟨e, hmem, hxe, hev⟩

/-- C4, witness for the amended theorem at a concrete input: the id 7 that
Top returns on freshProbeTree comes from a stored, still-unvisited entry. -/
theorem c4_witness :
    ∃ e ∈ freshProbeTree.inorder, e.index = 7 ∧ e.visited = false :=
  (c4_amended freshProbeTree).2 7 rfl

/-- C5, confirmed. On a distance-ordered tree, Next (Node.Top) with at least
one unvisited entry returns the index of the first unvisited entry in
ascending order, which is at minimal distance among the unvisited entries,
and marks exactly that entry visited (every other entry is unchanged); the
public Set.Top returns that index. When every entry is visited, Node.Top
returns the not-found signal (0, false) and leaves the tree unchanged. -/
theorem c5_theorem (s : Set) (t : Node)
    (hitems : s.items = t) (hord : t.ordered = true) :
    (t.allVisited = true → t.Top = ((0, false), t)) ∧
    (t.allVisited = false →
      ∃ pre e post,
        t.inorder = pre ++ e :: post ∧
        (∀ p ∈ pre, p.visited = true) ∧
        e.visited = false ∧
        (∀ e2 ∈ t.inorder, e2.visited = false → e.distance ≤ e2.distance) ∧
        s.Top = some (e.index, { s with items := t.Top.2 }) ∧
        (t.Top.2).inorder = pre ++ { e with visited := true } :: post) := by
  obtain ⟨hm1, hm2⟩ := Node.Top_markFirstUnvisited t
  constructor
  · intro hall
    have hvis : ∀ e ∈ t.inorder, e.visited = true := (Node.allVisited_iff t).1 hall
    have hmf := markFirstUnvisited_all_visited t.inorder hvis
    have hf : t.Top.1.2 = false := by rw [hm1, hmf]
    have ht := Node.Top_not_found_tree t hf
    have hv := Node.Top_not_found_val t hf
    calc t.Top = (t.Top.1, t.Top.2) := rfl
      _ = ((0, false), t) := by rw [ht, hv]
  · intro hnall
    have hex : ∃ e ∈ t.inorder, e.visited = false := by
      by_contra hno
      push_neg at hno
      have hall : t.allVisited = true := (Node.allVisited_iff t).2 fun e he => by
        have h2 := hno e he
        cases hv2 : e.visited
        · exact absurd hv2 h2
        · rfl
      rw [hall] at hnall
      cases hnall
    have hfound : (markFirstUnvisited t.inorder).1.2 = true :=
      markFirstUnvisited_found t.inorder hex
    obtain ⟨pre, e, post, hdec, hpre, hev, hidx, hres⟩ :=
      markFirstUnvisited_some t.inorder hfound
    refine ⟨pre, e, post, hdec, hpre, hev, ?_, ?_, by rw [hm2, hres]⟩
    · intro e2 he2 hv2
      have hsorted := Node.sorted_of_ordered t hord
      rw [hdec] at hsorted he2
      rcases List.mem_append.mp he2 with h2 | h2
      · have := hpre e2 h2
        rw [this] at hv2
        cases hv2
      · rcases List.mem_cons.mp h2 with rfl | h2
        · exact le_refl _
        · have hp := (List.pairwise_append.mp hsorted).2.1
          exact (List.pairwise_cons.mp hp).1 e2 h2
    · cases ht : t with
      | nil =>
        rw [ht] at hdec
        simp [Node.inorder] at hdec
      | node d0 l r =>
        rw [ht] at hitems hm1
        rw [Set.Top_eq s d0 l r hitems]
        have hfst : (Node.node d0 l r).Top.1.1 = e.index := by
          rw [hm1, ← ht, hidx]
        rw [hfst, ← ht]

/-- C5, witness for the exhausted branch at a concrete input: on a one-entry
tree whose entry is visited, Node.Top reports not found and leaves the tree
unchanged. -/
theorem c5_witness :
    (Node.node ⟨3, 7, true⟩ Node.nil Node.nil).Top =
      ((0, false), Node.node ⟨3, 7, true⟩ Node.nil Node.nil) :=
  (c5_theorem ⟨Node.node ⟨3, 7, true⟩ Node.nil Node.nil, idSource,
    headDistance, [], 1, 1⟩ (Node.node ⟨3, 7, true⟩ Node.nil Node.nil)
    rfl (by decide)).1 (by decide)

/-- Result state of the concrete C6 run: NewSet 2, Add 1, AddRange [2, 3]
(the last add is rejected because the set is full and 3 is farther). -/
def c6FinalSet : Set :=
  ⟨Node.node ⟨1, 1, false⟩ Node.nil (Node.node ⟨2, 2, false⟩ Node.nil Node.nil),
    idSource, headDistance, [], 2, 2⟩

/-- C6, confirmed. Starting from NewSet with a nonnegative capacity L, any
sequence of Add and AddRange operations that completes (panics abort the run
and leave no state) yields a set whose reported Size never exceeds L; since
every intermediate state is the final state of a prefix of the sequence, the
bound holds after every operation. -/
theorem c6_theorem (L : Int) (f : Nat → List Int × Bool)
    (dist : List Int → List Int → Int) (c : List Int)
    (ops : List SetOp) (s1 : Set)
    (hL : 0 ≤ L) (hrun : runOps (NewSet L f dist c) ops = some s1) :
    s1.Size ≤ L := by
  have h0 : (NewSet L f dist c).size ≤ (NewSet L f dist c).capacity := by
    simpa [NewSet] using hL
  have hinv := runOps_inv ops (NewSet L f dist c) s1 h0 hrun
  calc s1.Size = s1.size := rfl
    _ ≤ s1.capacity := hinv.1
    _ = L := hinv.2

/-- C6, witness at a concrete input: the run NewSet 2, Add 1, AddRange [2, 3]
completes in c6FinalSet, whose size is within the capacity bound 2. -/
theorem c6_witness : c6FinalSet.Size ≤ 2 :=
  c6_theorem 2 idSource headDistance [] [SetOp.add 1, SetOp.addRange [2, 3]]
    c6FinalSet (by decide) rfl

/-- C7, counterexample. The claim quantifies over every CandidateSet, but on
the freshly constructed (empty) set Elements dereferences a nil pointer (the
Go code calls s.items.Elements(...) unconditionally) instead of returning the
empty id list. -/
theorem c7_counterexample :
    (NewSet 3 idSource headDistance []).Elements = none ∧
    (NewSet 3 idSource headDistance []).Elements ≠ some [] := ⟨rfl, by decide⟩

/-- C7, amended. For every non-empty CandidateSet that stores at most Size()
entries (as the operations maintain) and satisfies the distance ordering
invariant, Elements returns exactly the stored ids in ascending order of
distance, and the length of the returned list equals the number of stored
entries; on the empty set Elements dereferences nil instead. -/
theorem c7_amended (s : Set) (d0 : IndexAndDistance) (l r : Node)
    (hitems : s.items = Node.node d0 l r)
    (hord : (Node.node d0 l r).ordered = true)
    (hcount : ((Node.node d0 l r).count : Int) ≤ s.size) :
    s.Elements = some (((Node.node d0 l r).inorder).map IndexAndDistance.index) ∧
    (((Node.node d0 l r).inorder).map IndexAndDistance.index).length =
      (Node.node d0 l r).count ∧
    (((Node.node d0 l r).inorder).map IndexAndDistance.distance).Pairwise
      (· ≤ ·) := by
  refine ⟨?_, ?_, ?_⟩
  · simp only [Set.Elements, hitems, if_pos hcount]
  · rw [List.length_map, Node.length_inorder]
  · exact List.Pairwise.map _ (fun a b h => h) (Node.sorted_of_ordered _ hord)

/-- C7, witness for the amended theorem at a concrete input: the one-entry
set fullTenSet lists exactly its stored id. -/
theorem c7_witness :
    (fullTenSet.Elements = some [1]) ∧
    (([1] : List Nat).length = 1) ∧
    (([10] : List Int).Pairwise (· ≤ ·)) :=
  c7_amended fullTenSet ⟨1, 10, false⟩ Node.nil Node.nil rfl (by decide)
    (by decide)

/-- C8, confirmed against the spec-modelled tile encoder (the implementation
is absent from src; only its reference test survives). The 4-bit encoder
trained on a distribution centered at 100 is order-preserving and matches the
reference values Encode(0.1) = 0, Encode(100) = 8, Encode(1000) = 16; the
edge-snap output 16 equals 2^bits and therefore lies outside the declared
bucket indices 0 .. 2^bits - 1, naming a 17th bucket. -/
theorem c8_theorem :
    (∀ x y : ℚ, x ≤ y →
      trainedTileEncoder.Encode x ≤ trainedTileEncoder.Encode y) ∧
    trainedTileEncoder.Encode (1 / 10) = 0 ∧
    trainedTileEncoder.Encode 100 = 8 ∧
    trainedTileEncoder.Encode 1000 = 16 ∧
    (2 : ℤ) ^ trainedTileEncoder.bits ≤ trainedTileEncoder.Encode 1000 := by
  have h1000 : trainedTileEncoder.Encode 1000 = 16 := by
    simp only [TileEncoder.Encode, trainedTileEncoder, tileCdf]
    have hz : ((1000 : ℚ) - 100) / 1 = 900 := by norm_num
    rw [hz, abs_of_nonneg (by norm_num), round_eq]
    norm_num
  refine ⟨?_, ?_, ?_, h1000, ?_⟩
  · intro x y h
    have hc : tileCdf ((x - 100) / 1) ≤ tileCdf ((y - 100) / 1) :=
      tileCdf_mono (by linarith)
    simp only [TileEncoder.Encode, trainedTileEncoder]
    rw [round_eq, round_eq]
    apply Int.floor_le_floor
    have h16 : (0 : ℚ) ≤ 2 ^ 4 := by positivity
    nlinarith [mul_le_mul_of_nonneg_left hc h16]
  · simp only [TileEncoder.Encode, trainedTileEncoder, tileCdf]
    have hz : ((1 / 10 : ℚ) - 100) / 1 = -999 / 10 := by norm_num
    rw [hz, abs_of_nonpos (by norm_num), round_eq]
    norm_num
  · simp only [TileEncoder.Encode, trainedTileEncoder, tileCdf]
    have hz : ((100 : ℚ) - 100) / 1 = 0 := by norm_num
    rw [hz, abs_of_nonneg (by norm_num), round_eq]
    norm_num
  · rw [h1000]
    norm_num [trainedTileEncoder]

/-- C8, witness for the monotonicity part at a concrete input. -/
theorem c8_witness :
    trainedTileEncoder.Encode 0 ≤ trainedTileEncoder.Encode 1 :=
  c8_theorem.1 0 1 (by norm_num)

/-- C9, confirmed. On the freshly constructed set (nil items pointer) both
NotVisited and Top dereference nil: the embedded operations return none (the
model of the Go panic) rather than false or a not-found signal, so the
failure branch of both public operations is reachable. -/
theorem c9_theorem (L : Int) (f : Nat → List Int × Bool)
    (dist : List Int → List Int → Int) (c : List Int) :
    (NewSet L f dist c).NotVisited = none ∧ (NewSet L f dist c).Top = none :=
  ⟨rfl, rfl⟩

/-- Concrete full set whose single entry (id 9) is already visited. -/
def exhaustedSet : Set :=
  ⟨Node.node ⟨9, 4, true⟩ Node.nil Node.nil, idSource, headDistance, [], 1, 1⟩

/-- Concrete set whose nearest unvisited entry carries the vector id 0. -/
def zeroIdSet : Set :=
  ⟨Node.node ⟨0, 4, false⟩ Node.nil Node.nil, idSource, headDistance, [], 1, 1⟩

/-- C10, confirmed. Set.Top discards the found flag of Node.Top, so a
non-empty set whose entries are all visited yields the plain id 0, exactly
what a set whose nearest unvisited entry has id 0 yields: at the public
interface an exhausted set is indistinguishable from one about to return the
genuine vector id 0. -/
theorem c10_theorem :
    (∀ (s : Set) (d0 : IndexAndDistance) (l r : Node),
      s.items = Node.node d0 l r → (Node.node d0 l r).allVisited = true →
      (s.Top).map Prod.fst = some 0) ∧
    (exhaustedSet.Top).map Prod.fst = some 0 ∧
    (zeroIdSet.Top).map Prod.fst = some 0 ∧
    exhaustedSet.items.allVisited = true ∧
    zeroIdSet.items.allVisited = false := by
  refine ⟨?_, rfl, rfl, rfl, rfl⟩
  intro s d0 l r hitems hall
  have hvis := (Node.allVisited_iff (Node.node d0 l r)).1 hall
  have hmf := markFirstUnvisited_all_visited _ hvis
  have hf : (Node.node d0 l r).Top.1.2 = false := by
    rw [(Node.Top_markFirstUnvisited _).1, hmf]
  have hv := Node.Top_not_found_val _ hf
  rw [Set.Top_eq s d0 l r hitems]
  simp [hv]

/-- C10, witness for the universal part at a concrete input: the exhausted
one-entry set surfaces the id 0 through Set.Top. -/
theorem c10_witness :
    (exhaustedSet.Top).map Prod.fst = some 0 :=
  c10_theorem.1 exhaustedSet ⟨9, 4, true⟩ Node.nil Node.nil rfl rfl

end SsdHelpers
